import Mathlib

set_option maxRecDepth 1000000

/-!
# Hedge-Trading-Platform: verification of the core backtesting claims

A shallow embedding, in Lean 4, of the parts of the repository
`faraz66/Hedge-Trading-Platform` that the frozen claims C1..C10 are about:

* `trading_bot/core/strategy.py` — `BaseStrategy.__init__` / parameter
  validation and `StrategyRegistry.register`;
* `trading_bot/core/backtester.py` — `Backtester.execute_trade`,
  `Backtester.run_backtest`, `Backtester.optimize_strategy`;
* `trading_bot/analysis/metrics.py` — `calculate_advanced_metrics`
  (the Sharpe-ratio and max-drawdown paths);
* `trading_bot/analysis/indicators.py` — `parallel_process_indicators`;
* `trading_bot/strategies/grid_hedge_strategy.py` — `GridLevel.pair_with`,
  `GridHedgeStrategy.calculate_grid_levels`, `should_adjust_grid`,
  `adjust_grid`, `manage_positions`, `_calculate_pair_profit`,
  `_is_paired_trade_profitable`, `_close_position_pair`;
* `trading_bot/backtesting/grid_backtester.py` — `GridBacktester.run_backtest`,
  `_process_grid_levels`, `_execute_trade`, `_calculate_max_drawdown`.

Python floats are modelled by `ℚ` (all claim-relevant arithmetic here is
exact: +, -, *, /, comparisons); pandas `NaN` entries are modelled by
`Option` where they matter (`pct_change`, `std`).  Python dicts keyed by
strings are modelled as association lists with last-write-wins update,
Python object references between grid levels are modelled as indices into
an object store (`heap`) list, and wall-clock timestamps are modelled by
the bar position `ℕ` (bar order is all the claims use of them).
-/

/-! ## Python dict primitives (string-keyed dicts used by the registry and
parameter maps): `dictSet` is `d[k] = v` (replace existing binding, else
append), `hasKey` is `k in d`, `dictGet?` is `d[k]` lookup. -/

/-- `d[k] = v` on a Python dict modelled as an association list: replaces
the first (unique) binding of `k`, appends if absent. -/
def dictSet {α : Type} (d : List (String × α)) (k : String) (v : α) :
    List (String × α) :=
  match d with
  | [] => [(k, v)]
  | (k0, v0) :: rest =>
      if k0 = k then (k0, v) :: rest else (k0, v0) :: dictSet rest k v

/-- `k in d` on a Python dict modelled as an association list. -/
def hasKey {α : Type} (d : List (String × α)) (k : String) : Bool :=
  d.any (fun kv => kv.1 = k)

/-- `d.get(k)` on a Python dict modelled as an association list. -/
def dictGet? {α : Type} (d : List (String × α)) (k : String) : Option α :=
  (d.find? (fun kv => kv.1 = k)).map (·.2)

/-- Python `{**d, **p}`: start from `d` and write every binding of `p`
over it, in order (later keys win). -/
def dictMerge {α : Type} (d p : List (String × α)) : List (String × α) :=
  p.foldl (fun acc kv => dictSet acc kv.1 kv.2) d

theorem hasKey_dictSet {α : Type} (d : List (String × α)) (k k' : String)
    (v : α) (h : hasKey d k' = true) : hasKey (dictSet d k v) k' = true := by
  induction d with
  | nil => simp [hasKey] at h
  | cons kv rest ih =>
      obtain ⟨k0, v0⟩ := kv
      simp only [dictSet]
      by_cases hk : k0 = k
      · simp only [if_pos hk]
        simp only [hasKey, List.any_cons] at h ⊢
        exact h
      · simp only [if_neg hk]
        simp only [hasKey, List.any_cons] at h ⊢
        rcases Bool.or_eq_true_iff.mp h with h0 | h1
        · exact Bool.or_eq_true_iff.mpr (Or.inl h0)
        · exact Bool.or_eq_true_iff.mpr (Or.inr (ih h1))

theorem hasKey_dictMerge_left {α : Type} (d p : List (String × α))
    (k : String) (h : hasKey d k = true) : hasKey (dictMerge d p) k = true := by
  induction p generalizing d with
  | nil => exact h
  | cons kv rest ih =>
      simp only [dictMerge, List.foldl_cons] at ih ⊢
      exact ih (dictSet d kv.1 kv.2) (hasKey_dictSet d kv.1 k kv.2 h)

/-! ## C10 — `BaseStrategy.__init__` / `validate_parameters` /
`get_required_parameters` (`trading_bot/core/strategy.py`, lines 15-35).

```python
def __init__(self, symbol, params=None):
    self.symbol = symbol
    self.parameters = {**self.default_parameters, **(params or {})}
    self.validate_parameters()

def validate_parameters(self):
    required_params = self.get_required_parameters()
    if not all(param in self.parameters for param in required_params):
        missing = [p for p in required_params if p not in self.parameters]
        raise ValueError(...)

def get_required_parameters(self):
    return list(self.default_parameters.keys())
```

Parameter values are opaque to this logic; we model them as `ℚ`. -/

/-- `BaseStrategy.get_required_parameters` for a subclass that does not
override it: the keys of `default_parameters`, in order. -/
def get_required_parameters (defaults : List (String × ℚ)) : List String :=
  defaults.map (·.1)

/-- `BaseStrategy.validate_parameters`: error with the missing names iff
some required parameter key is absent from the merged parameter dict. -/
def validate_parameters (required : List String)
    (parameters : List (String × ℚ)) : Except (List String) Unit :=
  if required.all (fun p => hasKey parameters p) then Except.ok ()
  else Except.error (required.filter (fun p => ¬ hasKey parameters p))

/-- `BaseStrategy.__init__`: merge defaults with the overrides (overrides
win), then validate; returns the merged parameter dict on success. -/
def baseStrategyInit (defaults overrides : List (String × ℚ)) :
    Except (List String) (List (String × ℚ)) :=
  let parameters := dictMerge defaults overrides
  match validate_parameters (get_required_parameters defaults) parameters with
  | Except.ok _ => Except.ok parameters
  | Except.error e => Except.error e

/-- **C10** — for every `BaseStrategy` subclass that does not override
`get_required_parameters`, construction succeeds for every override map
(including the empty one): the required keys are exactly the keys of
`default_parameters`, those are all present in the merged map
`{**defaults, **overrides}` by construction, so `validate_parameters`
never raises and `__init__` returns the merged parameter dict. -/
theorem c10_defaults_always_satisfy_validation
    (defaults overrides : List (String × ℚ)) :
    baseStrategyInit defaults overrides =
      Except.ok (dictMerge defaults overrides) := by
  have hall : (get_required_parameters defaults).all
      (fun p => hasKey (dictMerge defaults overrides) p) = true := by
    rw [List.all_eq_true]
    intro p hp
    simp only [get_required_parameters, List.mem_map] at hp
    obtain ⟨kv, hkv, hk⟩ := hp
    apply hasKey_dictMerge_left
    simp only [hasKey, List.any_eq_true]
    exact ⟨kv, hkv, by simp [hk]⟩
  simp [baseStrategyInit, validate_parameters, hall]

/-! ## C9 — `StrategyRegistry.register`
(`trading_bot/core/strategy.py`, lines 82-96).

```python
@classmethod
def register(cls, strategy_class):
    if not issubclass(strategy_class, BaseStrategy):
        raise ValueError(f"{strategy_class.__name__} must inherit from BaseStrategy")
    cls._strategies[strategy_class.__name__] = strategy_class
    return strategy_class
```

A strategy class is modelled by its name, whether it subclasses
`BaseStrategy`, and an implementation identity tag (two distinct classes
with the same name get distinct tags). -/

/-- A Python strategy class as far as the registry can observe it. -/
structure StrategyClass where
  name : String
  isSubclassOfBase : Bool
  implId : Nat
deriving DecidableEq, Repr

/-- `StrategyRegistry.register`: raises only when the class is not a
`BaseStrategy` subclass; otherwise writes `_strategies[name] = class`
unconditionally (no check whether the name is already registered). -/
def registerStrategy (reg : List (String × StrategyClass))
    (c : StrategyClass) : Except String (List (String × StrategyClass)) :=
  if c.isSubclassOfBase then Except.ok (dictSet reg c.name c)
  else Except.error (c.name ++ " must inherit from BaseStrategy")

/-- **C9 counterexample** — two distinct implementations under the same
name "S": re-registering the name with a *different* implementation does
not fail; it succeeds and silently overwrites the first binding. -/
theorem c9_counterexample :
    registerStrategy [("S", ⟨"S", true, 0⟩)] ⟨"S", true, 1⟩ =
      Except.ok [("S", ⟨"S", true, 1⟩)] ∧
    (⟨"S", true, 1⟩ : StrategyClass) ≠ ⟨"S", true, 0⟩ := by
  constructor
  · rfl
  · decide

theorem dictSet_idem {α : Type} (d : List (String × α)) (k : String)
    (v : α) : dictSet (dictSet d k v) k v = dictSet d k v := by
  induction d with
  | nil => simp [dictSet]
  | cons kv rest ih =>
      obtain ⟨k0, v0⟩ := kv
      by_cases hk : k0 = k
      · simp [dictSet, hk]
      · simp [dictSet, hk, ih]

/-- **C10/C9 shared model sanity**: looking up a key just written returns
the written value (used to read the registry after `register`). -/
theorem dictGet?_dictSet_self {α : Type} (d : List (String × α))
    (k : String) (v : α) : dictGet? (dictSet d k v) k = some v := by
  induction d with
  | nil => simp [dictSet, dictGet?, List.find?]
  | cons kv rest ih =>
      obtain ⟨k0, v0⟩ := kv
      by_cases hk : k0 = k
      · simp [dictSet, hk, dictGet?, List.find?]
      · simp only [dictSet, if_neg hk]
        simp only [dictGet?, List.find?] at ih ⊢
        have : (decide (k0 = k)) = false := by simp [hk]
        simp [this, ih]

/-- **C9 amended** — `register` never compares against an existing
registration: whenever the class subclasses `BaseStrategy` it succeeds and
unconditionally overwrites any same-name binding (`lookup` afterwards
returns the new class), and registering the same class twice is idempotent;
it fails only for classes that do not subclass `BaseStrategy`. -/
theorem c9_amended (reg : List (String × StrategyClass)) (c : StrategyClass)
    (h : c.isSubclassOfBase = true) :
    registerStrategy reg c = Except.ok (dictSet reg c.name c) ∧
    dictGet? (dictSet reg c.name c) c.name = some c ∧
    registerStrategy (dictSet reg c.name c) c =
      Except.ok (dictSet reg c.name c) := by
  refine ⟨by simp [registerStrategy, h], dictGet?_dictSet_self reg c.name c, ?_⟩
  simp [registerStrategy, h, dictSet_idem]

/-- Witness for `c9_amended` at a concrete registry and class. -/
theorem c9_amended_witness :
    registerStrategy [] (⟨"GridStrategy", true, 7⟩ : StrategyClass) =
      Except.ok (dictSet [] "GridStrategy"
        (⟨"GridStrategy", true, 7⟩ : StrategyClass)) ∧
    dictGet? (dictSet [] "GridStrategy"
        (⟨"GridStrategy", true, 7⟩ : StrategyClass))
        "GridStrategy" = some (⟨"GridStrategy", true, 7⟩ : StrategyClass) ∧
    registerStrategy (dictSet [] "GridStrategy"
        (⟨"GridStrategy", true, 7⟩ : StrategyClass))
        (⟨"GridStrategy", true, 7⟩ : StrategyClass) =
      Except.ok (dictSet [] "GridStrategy"
        (⟨"GridStrategy", true, 7⟩ : StrategyClass)) :=
  c9_amended [] (⟨"GridStrategy", true, 7⟩ : StrategyClass) rfl

/-! ## Metrics engine — `calculate_advanced_metrics`
(`trading_bot/analysis/metrics.py`, lines 9-22).

```python
returns = equity_curve['equity'].pct_change()
...
volatility = returns.std() * np.sqrt(ANNUALIZATION_FACTOR)
max_drawdown = abs(returns.cummin().min())
sharpe_ratio = (annualized_return - RISK_FREE_RATE) / volatility if volatility > 0 else float('inf')
```

pandas semantics embedded here:
* `pct_change()` puts `NaN` at position 0 and `x_i / x_{i-1} - 1`
  elsewhere; a zero denominator never yields a finite number (`0/0 = NaN`,
  `x/0 = ±inf`); both non-finite cases are folded into `none` (every
  theorem below applies the model only where the two coincide or the
  denominator is nonzero);
* `Series.std()` (ddof=1) skips `NaN` entries and is itself `NaN` when
  fewer than 2 entries remain, and `NaN > 0` is `False` in Python, so the
  branch condition `volatility > 0` holds iff at least 2 valid returns
  exist and their squared deviation from the mean is positive (the factor
  `np.sqrt(252)` is strictly positive and does not affect the sign);
* `equity_curve['equity'].iloc[-1]` raises `IndexError` on an empty curve
  before any ratio is computed;
* the value of the finite branch involves the irrational `sqrt(252)` and
  is not needed by any claim: the model records which branch is taken. -/

/-- pandas `Series.pct_change()`: `none` marks a non-finite entry (the
leading `NaN`, and any zero-denominator entry). -/
def pct_change (xs : List ℚ) : List (Option ℚ) :=
  match xs with
  | [] => []
  | _ :: rest =>
      none :: (xs.zipWith (fun a b => if a = 0 then none else some (b / a - 1)) rest)

/-- The non-`NaN` entries of the per-period return series, in order
(pandas reductions such as `std`, `cummin`, `min` skip `NaN`). -/
def validReturns (xs : List ℚ) : List ℚ :=
  (pct_change xs).filterMap id

/-- Sum of squared deviations from the mean; `Series.std()` (ddof=1) is
`sqrt(sampleSqDev rs / (rs.length - 1))`. -/
def sampleSqDev (rs : List ℚ) : ℚ :=
  (rs.map (fun r => (r - rs.sum / rs.length) ^ 2)).sum

/-- The branch condition `volatility > 0` of `calculate_advanced_metrics`:
true iff `returns.std()` is a (finite) strictly positive number. -/
def stdPos (rs : List ℚ) : Prop :=
  2 ≤ rs.length ∧ 0 < sampleSqDev rs

instance (rs : List ℚ) : Decidable (stdPos rs) :=
  inferInstanceAs (Decidable (2 ≤ rs.length ∧ 0 < sampleSqDev rs))

/-- Which of the three observable outcomes the `sharpe_ratio` computation
of `calculate_advanced_metrics` reaches. -/
inductive SharpeBranch where
  | raise   -- empty equity curve: `iloc[-1]` raises IndexError
  | inf     -- `volatility > 0` false: `float('inf')`
  | finite  -- `volatility > 0` true: `(annualized - rf) / volatility`
deriving DecidableEq, Repr

/-- The `sharpe_ratio` outcome of `calculate_advanced_metrics` on a given
equity curve. -/
def sharpeBranch (equity : List ℚ) : SharpeBranch :=
  if equity.isEmpty then SharpeBranch.raise
  else if stdPos (validReturns equity) then SharpeBranch.finite
  else SharpeBranch.inf

/-- **C3 counterexample** — a perfectly flat equity curve `[100,100,100]`:
`calculate_advanced_metrics` takes the `float('inf')` branch for
`sharpe_ratio` (volatility is exactly 0, `0 > 0` is false), not the finite
value 0 the claim asserts. -/
theorem c3_counterexample :
    sharpeBranch [100, 100, 100] = SharpeBranch.inf ∧
    SharpeBranch.inf ≠ SharpeBranch.finite := by
  constructor
  · with_unfolding_all rfl
  · decide

theorem filterMap_id_replicate_some (k : ℕ) (q : ℚ) :
    (List.replicate k (some q)).filterMap id = List.replicate k q := by
  induction k with
  | zero => rfl
  | succ j ih => simp [List.replicate_succ, List.filterMap_cons, ih]

theorem validReturns_replicate (n : ℕ) (c : ℚ) (hc : c ≠ 0) :
    validReturns (List.replicate n c) = List.replicate (n - 1) 0 := by
  cases n with
  | zero => simp [validReturns, pct_change]
  | succ m =>
      have key : ∀ k : ℕ, (c :: List.replicate k c).zipWith
          (fun a b => if a = 0 then none else some (b / a - 1))
          (List.replicate k c) = List.replicate k (some (0 : ℚ)) := by
        intro k
        induction k with
        | zero => simp
        | succ j ih =>
            simp only [List.replicate_succ, List.zipWith_cons_cons] at ih ⊢
            rw [ih]
            simp [hc, div_self hc]
      simp only [validReturns, List.replicate_succ, pct_change]
      rw [show List.replicate m c = (List.replicate m c) from rfl]
      rw [key m]
      simp only [List.filterMap_cons, id]
      rw [filterMap_id_replicate_some]
      simp

theorem sampleSqDev_replicate_zero (k : ℕ) :
    sampleSqDev (List.replicate k (0 : ℚ)) = 0 := by
  simp [sampleSqDev, List.sum_replicate]

/-- **C3 amended** — for every equity curve that is perfectly flat at a
nonzero value (length ≥ 1), `calculate_advanced_metrics` returns
`sharpe_ratio = float('inf')` (the per-period returns are all 0, so
`volatility > 0` is false), never 0; and an *empty* equity curve raises
`IndexError` instead of returning 0. -/
theorem c3_amended (n : ℕ) (c : ℚ) (hn : 1 ≤ n) (hc : 0 < c) :
    sharpeBranch (List.replicate n c) = SharpeBranch.inf ∧
    sharpeBranch [] = SharpeBranch.raise := by
  constructor
  · have hne : ¬ (List.replicate n c).isEmpty := by
      cases n with
      | zero => omega
      | succ m => simp [List.replicate_succ]
    have hv : validReturns (List.replicate n c) = List.replicate (n - 1) 0 :=
      validReturns_replicate n c (ne_of_gt hc)
    have hnot : ¬ stdPos (validReturns (List.replicate n c)) := by
      rw [hv]
      intro h
      have := h.2
      rw [sampleSqDev_replicate_zero] at this
      exact lt_irrefl 0 this
    simp [sharpeBranch, hne, hnot]
  · rfl

/-- Witness for `c3_amended`: a flat 5-bar curve at 100. -/
theorem c3_amended_witness :
    1 ≤ 5 ∧ (0 : ℚ) < 100 ∧
    (sharpeBranch (List.replicate 5 (100 : ℚ)) = SharpeBranch.inf ∧
     sharpeBranch [] = SharpeBranch.raise) :=
  ⟨by decide, by with_unfolding_all decide,
    c3_amended 5 100 (by decide) (by with_unfolding_all decide)⟩

/-! ## C4 — max drawdown.

`calculate_advanced_metrics` (`trading_bot/analysis/metrics.py`, line 19):

```python
max_drawdown = abs(returns.cummin().min())
```

i.e. the absolute value of the most negative *single-period* return
(pandas `cummin().min()` equals `min()` over the non-`NaN` entries; the
result is `NaN` when no valid entry exists — modelled as `none`).

`GridBacktester._calculate_max_drawdown`
(`trading_bot/backtesting/grid_backtester.py`, lines 162-166):

```python
rolling_max = equity.expanding().max()
drawdowns = equity / rolling_max - 1.0
return abs(drawdowns.min()) if len(drawdowns) > 0 else 0.0
``` -/

/-- The `max_drawdown` value of `calculate_advanced_metrics`:
`abs(returns.cummin().min())`; `none` models the `NaN` obtained when the
return series has no valid entry. -/
def metrics_max_drawdown (equity : List ℚ) : Option ℚ :=
  ((validReturns equity).min?).map (fun m => |m|)

/-- `equity.expanding().max()` continued from a running maximum `m`. -/
def runningMaxesFrom (m : ℚ) : List ℚ → List ℚ
  | [] => []
  | x :: rest => max m x :: runningMaxesFrom (max m x) rest

/-- pandas `Series.expanding().max()`: the running maximum. -/
def runningMaxes (xs : List ℚ) : List ℚ :=
  match xs with
  | [] => []
  | x :: rest => x :: runningMaxesFrom x rest

/-- `GridBacktester._calculate_max_drawdown`. -/
def grid_calculate_max_drawdown (equity : List ℚ) : ℚ :=
  let drawdowns := equity.zipWith (fun e m => e / m - 1) (runningMaxes equity)
  match drawdowns.min? with
  | none => 0
  | some m => |m|

/-- The claim's formula, written from the spec's words (§4.5): the largest
peak-to-trough decline `|min((equity − running-max)/running-max)|`. -/
def spec_peak_to_trough_drawdown (equity : List ℚ) : Option ℚ :=
  ((equity.zipWith (fun e m => (e - m) / m) (runningMaxes equity)).min?).map
    (fun m => |m|)

/-- **C4 counterexample** — equity curve `[100, 90, 81]` (two consecutive
−10% bars): `calculate_advanced_metrics` returns `max_drawdown = 0.1`
(the worst single-period return), while the peak-to-trough decline the
claim asserts is `0.19`. -/
theorem c4_counterexample :
    metrics_max_drawdown [100, 90, 81] = some (1/10) ∧
    spec_peak_to_trough_drawdown [100, 90, 81] = some (19/100) ∧
    ((1 : ℚ)/10) ≠ 19/100 := by
  refine ⟨?_, ?_, ?_⟩
  · with_unfolding_all rfl
  · with_unfolding_all rfl
  · with_unfolding_all decide

theorem runMax_drawdown_formulas_agree (xs : List ℚ) (m : ℚ) (hm : 0 < m)
    (hx : ∀ x ∈ xs, 0 < x) :
    xs.zipWith (fun e mx => e / mx - 1) (runningMaxesFrom m xs) =
    xs.zipWith (fun e mx => (e - mx) / mx) (runningMaxesFrom m xs) := by
  induction xs generalizing m with
  | nil => rfl
  | cons x rest ih =>
      have hx0 : 0 < x := hx x (List.mem_cons_self x rest)
      have hmax : (0 : ℚ) < max m x := lt_max_of_lt_left hm
      simp only [runningMaxesFrom, List.zipWith_cons_cons]
      congr 1
      · rw [sub_div, div_self (ne_of_gt hmax)]
      · exact ih (max m x) hmax (fun y hy => hx y (List.mem_cons_of_mem x hy))

/-- **C4 amended** — the `max_drawdown` of `calculate_advanced_metrics` is
`|min single-period return|`, which differs from the peak-to-trough
formula in general (see the counterexample); the claim's formula *is*
computed by `GridBacktester._calculate_max_drawdown`: for every nonempty
positive equity curve its result equals
`|min((equity − running-max)/running-max)|`. -/
theorem c4_amended (equity : List ℚ) (hne : equity ≠ [])
    (hpos : ∀ x ∈ equity, 0 < x) :
    spec_peak_to_trough_drawdown equity =
      some (grid_calculate_max_drawdown equity) := by
  cases equity with
  | nil => exact absurd rfl hne
  | cons x rest =>
      have hx0 : 0 < x := hpos x (List.mem_cons_self x rest)
      have hagree := runMax_drawdown_formulas_agree rest x hx0
        (fun y hy => hpos y (List.mem_cons_of_mem x hy))
      simp only [spec_peak_to_trough_drawdown, grid_calculate_max_drawdown,
        runningMaxes, List.zipWith_cons_cons, ← hagree]
      have hhead : x / x - 1 = (x - x) / x := by
        rw [sub_div, div_self (ne_of_gt hx0)]
      rw [← hhead]
      cases hmin : ((x / x - 1) ::
          rest.zipWith (fun e mx => e / mx - 1) (runningMaxesFrom x rest)).min? with
      | none =>
          exact absurd (List.min?_eq_none_iff.mp hmin) (List.cons_ne_nil _ _)
      | some m => rfl

/-- Witness for `c4_amended` at the curve `[100, 90, 81]`. -/
theorem c4_amended_witness :
    ([100, 90, 81] : List ℚ) ≠ [] ∧ (∀ x ∈ ([100, 90, 81] : List ℚ), 0 < x) ∧
    spec_peak_to_trough_drawdown [100, 90, 81] =
      some (grid_calculate_max_drawdown [100, 90, 81]) :=
  ⟨by simp, by with_unfolding_all decide,
    c4_amended [100, 90, 81] (by simp) (by with_unfolding_all decide)⟩

/-! ## C6 — `Backtester.optimize_strategy`
(`trading_bot/core/backtester.py`, lines 119-165).

```python
results = []
with ThreadPoolExecutor(max_workers=max_workers) as executor:
    future_to_params = { executor.submit(...): params for params in param_combinations }
    for future in as_completed(future_to_params):
        ...
        results.append({'params': params, 'metrics': result['metrics']})
results.sort(key=lambda x: x['metrics']['sharpe_ratio'], reverse=True)
return results[0]
```

`results` is filled in `as_completed` order — the order trials happen to
finish, which varies between runs; the model therefore takes the completed
list (a permutation of the trials) as an input.  Python `list.sort` is
stable, and `sort(key=…, reverse=True)` keeps the *list* order among
equal keys; any stable sort computes the same output list, and it is
modelled here by `List.insertionSort` with the relation
"sharpe of the left ≥ sharpe of the right" (Mathlib's `insertionSort`
with a reflexive relation is stable).  `results[0]` on an empty list
raises `IndexError`, modelled by `Option`. -/

/-- One optimizer trial as ranked by `optimize_strategy`: the parameter
combination (tagged by its position in the Cartesian-product enumeration)
and the trial's Sharpe ratio. -/
structure Trial where
  params : Nat
  sharpe : ℚ
deriving DecidableEq, Repr

/-- The descending-Sharpe ordering used by `results.sort(key=...,
reverse=True)`. -/
def sharpeGE (a b : Trial) : Prop := b.sharpe ≤ a.sharpe

instance : DecidableRel sharpeGE :=
  fun a b => inferInstanceAs (Decidable (b.sharpe ≤ a.sharpe))

instance : IsTotal Trial sharpeGE := ⟨fun a b => le_total b.sharpe a.sharpe⟩

instance : IsTrans Trial sharpeGE :=
  ⟨fun _ _ _ hab hbc => le_trans hbc hab⟩

/-- The tail of `optimize_strategy` (sort by Sharpe descending, return the
first element) as a function of the completed-trials list. -/
def optimizeBest (completed : List Trial) : Option Trial :=
  (completed.insertionSort sharpeGE).head?

/-- **C6 counterexample** — two parameter combinations (0 and 1) whose
trials tie at Sharpe 1: the two possible completion orders of the same
trial set return *different* best combinations, because the stable sort
keeps completion order among ties, not the Cartesian-product enumeration
order. -/
theorem c6_counterexample :
    optimizeBest [⟨0, 1⟩, ⟨1, 1⟩] = some ⟨0, 1⟩ ∧
    optimizeBest [⟨1, 1⟩, ⟨0, 1⟩] = some ⟨1, 1⟩ ∧
    List.Perm [(⟨1, 1⟩ : Trial), ⟨0, 1⟩] [⟨0, 1⟩, ⟨1, 1⟩] ∧
    some (⟨0, 1⟩ : Trial) ≠ some ⟨1, 1⟩ := by
  refine ⟨?_, ?_, ?_, ?_⟩
  · with_unfolding_all rfl
  · with_unfolding_all rfl
  · exact List.Perm.swap _ _ _
  · decide

/-- **C6 amended** — what *is* deterministic about the returned result:
for every completion order, the returned trial has a Sharpe ratio at least
that of every completed trial (it is a maximal-Sharpe trial); but ties
among maximal trials are broken by completion order (see the
counterexample), not by the enumeration order of the Cartesian product. -/
theorem c6_amended (completed : List Trial) (b : Trial)
    (hb : optimizeBest completed = some b) :
    ∀ t ∈ completed, t.sharpe ≤ b.sharpe := by
  intro t ht
  have hmem : t ∈ completed.insertionSort sharpeGE :=
    (List.perm_insertionSort sharpeGE completed).mem_iff.mpr ht
  have hsorted := List.sorted_insertionSort sharpeGE completed
  unfold optimizeBest at hb
  cases hs : completed.insertionSort sharpeGE with
  | nil => rw [hs] at hb; exact absurd hb (by simp)
  | cons x tail =>
      rw [hs] at hb hmem hsorted
      have hx : x = b := by simpa using hb
      rcases List.mem_cons.mp hmem with h | h
      · rw [h, hx]
      · have := (List.sorted_cons.mp hsorted).1 t h
        rw [← hx]
        exact this

/-- Witness for `c6_amended`: a two-trial completion list with distinct
Sharpe ratios. -/
theorem c6_amended_witness :
    optimizeBest [⟨3, 2⟩, ⟨4, 5⟩] = some (⟨4, 5⟩ : Trial) ∧
    (⟨3, 2⟩ : Trial).sharpe ≤ (⟨4, 5⟩ : Trial).sharpe :=
  ⟨by with_unfolding_all rfl,
    c6_amended [⟨3, 2⟩, ⟨4, 5⟩] ⟨4, 5⟩ (by with_unfolding_all rfl)
      ⟨3, 2⟩ (by simp)⟩

/-! ## C5 — `parallel_process_indicators`
(`trading_bot/analysis/indicators.py`, lines 64-102).

```python
min_chunk_size = 250
optimal_chunk_size = max(min_chunk_size, len(historical_data) // max_workers)
chunk_size = optimal_chunk_size + 200  # Add overlap period
chunks = []
for i in range(0, len(historical_data), optimal_chunk_size):
    chunk_end = min(i + chunk_size, len(historical_data))
    chunks.append((i, historical_data[i:chunk_end].copy()))
...
    processed_chunk = future.result()
    if chunk_num < len(chunks) - 1:
        processed_chunk = processed_chunk.iloc[:optimal_chunk_size]
    processed_chunks.append((start_idx, processed_chunk))
...
processed_chunks.sort(key=lambda x: x[0])
return pd.concat([chunk for _, chunk in processed_chunks])
```

The model specialises `calculate_indicators` to one representative
indicator column, `sma_{window}`:
`ta.trend.sma_indicator(close, window, fillna=True)` computes
`close.rolling(window, min_periods=0).mean()` — at row `j` the mean of
the last `min(j+1, window)` closes (the spec, §4.1, likewise describes
early bars as filled with the best available partial statistic).  Each
chunk is processed independently on its own rows, worker results are
re-sorted by original start offset (so the concatenation order below is
the start order, whatever order workers finish in).

Note the slip this section proves: the 200-row overlap is appended at the
*end* of each chunk and then the chunk is truncated back to its *first*
`optimal_chunk_size` rows — the kept region is exactly the part whose
rolling windows were not warmed up by the preceding chunk's data. -/

/-- `ta.trend.sma_indicator(close, window, fillna=True)`: rolling mean
with `min_periods=0`. -/
def sma_indicator (window : Nat) (closes : List ℚ) : List ℚ :=
  (List.range closes.length).map (fun j =>
    let win := (closes.take (j + 1)).drop (j + 1 - window)
    win.sum / win.length)

/-- Python `range(0, n, step)` for a positive step. -/
def pyRange (n step : Nat) : List Nat :=
  (List.range ((n + step - 1) / step)).map (· * step)

/-- `parallel_process_indicators`, specialised to the `sma_{window}`
column: chunk, process each chunk independently, truncate every chunk but
the last to `optimal_chunk_size` rows, and concatenate in start-offset
order. -/
def parallel_process_indicators (window maxWorkers : Nat)
    (closes : List ℚ) : List ℚ :=
  let n := closes.length
  let optimalChunkSize := max 250 (n / maxWorkers)
  let chunkSize := optimalChunkSize + 200
  let starts := pyRange n optimalChunkSize
  let numChunks := starts.length
  (starts.enum.map (fun ki =>
    let chunk := (closes.drop ki.2).take chunkSize
    let processed := sma_indicator window chunk
    if ki.1 < numChunks - 1 then processed.take optimalChunkSize
    else processed)).flatten

/-- The 251-bar close series on which the chunked and the sequential
computation diverge: 250 bars at 1 followed by one bar at 21. -/
def divergentCloses : List ℚ := List.replicate 250 1 ++ [21]

/-- **C5** — with 251 bars and 8 workers the code forms two chunks,
`[0:251)` (kept rows `[0:250)`) and `[250:251)` (kept whole).  Bar 250 is
far beyond the 20-bar warm-up window, yet the chunked pipeline computes
its `sma_20` from the second chunk's own single row (value 21), while the
sequential computation averages the last 20 closes (value 2).  The output
still has one row per input bar, so the divergence is silent. -/
theorem c5_chunked_vs_sequential_divergence :
    (parallel_process_indicators 20 8 divergentCloses)[250]? = some 21 ∧
    (sma_indicator 20 divergentCloses)[250]? = some 2 ∧
    ((21 : ℚ) ≠ 2) ∧
    (parallel_process_indicators 20 8 divergentCloses).length =
      divergentCloses.length := by
  refine ⟨?_, ?_, ?_, ?_⟩
  · with_unfolding_all rfl
  · with_unfolding_all rfl
  · with_unfolding_all decide
  · with_unfolding_all rfl

/-! ## Grid levels — `GridLevel`, `pair_with`, `calculate_grid_levels`
(`trading_bot/strategies/grid_hedge_strategy.py`, lines 8-23 and 164-192).

```python
class GridLevel:
    def __init__(self, price, type, size, paired_level=None):
        self.price = price; self.type = type; self.size = size
        self.paired_level = paired_level
        self.order_id = None; self.is_active = True; self.is_filled = False
        self.fill_price = None; self.fill_time = None; self.profit = 0.0
    def pair_with(self, other_level):
        self.paired_level = other_level
        other_level.paired_level = self

def calculate_grid_levels(self, current_price):
    levels = []
    price_range = current_price * self._params['grid_spacing'] * self._params['grid_levels']
    min_price = current_price - (price_range / 2)
    for i in range(self._params['grid_levels'] * 2):
        price = min_price + (i * current_price * self._params['grid_spacing'])
        size = self._params['base_order_size'] * (1 + (i // 2) * (self._params['size_multiplier'] - 1))
        if price < current_price:
            buy_level = GridLevel(price=price, type='BUY', size=size)
            levels.append(buy_level)
        if price > current_price:
            sell_level = GridLevel(price=price, type='SELL', size=size)
            levels.append(sell_level)
            if len(levels) >= 2:
                buy_level = next((l for l in reversed(levels) if l.type == 'BUY' and l.paired_level is None), None)
                if buy_level:
                    buy_level.pair_with(sell_level)
    return levels
```

Object references between levels (`paired_level`) are modelled as indices;
`pair_with` writes both indices.  The `self._params` values the function
reads are taken as an explicit `GridParams` record (the strategy stores
them in a dict merged by the base class; only their values matter here).
`order_id` and `profit` are never read by the claims and are omitted. -/

/-- `GridLevel.type`: the string `'BUY'` or `'SELL'`. -/
inductive Side where
  | buy
  | sell
deriving DecidableEq, Repr

/-- One `GridLevel` object; `pairedIdx` is the index of the
`paired_level` object (into the list holding the levels). -/
structure Level where
  price : ℚ
  side : Side
  size : ℚ
  pairedIdx : Option Nat
  isActive : Bool
  isFilled : Bool
  fillPrice : Option ℚ
  fillTime : Option Nat
deriving DecidableEq, Repr

/-- `GridLevel(price=price, type=t, size=size)`: a fresh, unpaired,
active, unfilled level. -/
def mkLevel (price : ℚ) (side : Side) (size : ℚ) : Level :=
  ⟨price, side, size, none, true, false, none, none⟩

/-- The strategy parameters read by the grid code
(`self._params['grid_levels']` etc.). -/
structure GridParams where
  gridLevels : Nat
  gridSpacing : ℚ
  baseOrderSize : ℚ
  sizeMultiplier : ℚ
  minProfit : ℚ
  maxLossPct : ℚ
deriving DecidableEq, Repr

/-- `min_price + (i * current_price * grid_spacing)`. -/
def levelPrice (p : GridParams) (cp : ℚ) (i : Nat) : ℚ :=
  cp - cp * p.gridSpacing * (p.gridLevels : ℚ) / 2 + (i : ℚ) * cp * p.gridSpacing

/-- `base_order_size * (1 + (i // 2) * (size_multiplier - 1))`. -/
def levelSize (p : GridParams) (i : Nat) : ℚ :=
  p.baseOrderSize * (1 + ((i / 2 : Nat) : ℚ) * (p.sizeMultiplier - 1))

/-- `next((l for l in reversed(levels) if l.type == 'BUY' and
l.paired_level is None), None)`, as the *index* of the last unpaired BUY
level; `off` is the index of the list head in the enclosing list. -/
def lubAux (off : Nat) : List Level → Option Nat
  | [] => none
  | l :: ls =>
      match lubAux (off + 1) ls with
      | some k => some k
      | none =>
          if l.side = Side.buy ∧ l.pairedIdx = none then some off else none

/-- Index of the last BUY level with `paired_level is None`, if any. -/
def lastUnpairedBuyIdx (ls : List Level) : Option Nat := lubAux 0 ls

/-- Append a freshly created SELL level and, when an unpaired BUY level
exists, `buy_level.pair_with(sell_level)` (both references written).  The
inner `none` branch is unreachable: a found index is always in range. -/
def pairWithLast (ls : List Level) (sl : Level) : List Level :=
  match lastUnpairedBuyIdx ls with
  | none => ls ++ [sl]
  | some b =>
      match ls[b]? with
      | none => ls ++ [sl]
      | some lb =>
          ls.set b { lb with pairedIdx := some ls.length } ++
            [{ sl with pairedIdx := some b }]

/-- One iteration of the `calculate_grid_levels` loop at index `i`. -/
def calcGridStep (p : GridParams) (cp : ℚ) (ls : List Level) (i : Nat) :
    List Level :=
  let price := levelPrice p cp i
  if price < cp then ls ++ [mkLevel price Side.buy (levelSize p i)]
  else if cp < price then
    pairWithLast ls (mkLevel price Side.sell (levelSize p i))
  else ls

/-- `GridHedgeStrategy.calculate_grid_levels(current_price)`. -/
def calculate_grid_levels (p : GridParams) (cp : ℚ) : List Level :=
  (List.range (p.gridLevels * 2)).foldl (calcGridStep p cp) []

/-- Pairing symmetry with opposite sides: whenever level `i` points at
level `j`, level `j` points back at level `i` and the two sides differ. -/
def PairSym (ls : List Level) : Prop :=
  ∀ (i j : Nat) (li : Level), ls[i]? = some li → li.pairedIdx = some j →
    ∃ lj : Level, ls[j]? = some lj ∧ lj.pairedIdx = some i ∧ li.side ≠ lj.side

theorem lubAux_spec (ls : List Level) : ∀ (off k : Nat),
    lubAux off ls = some k → off ≤ k ∧
      ∃ lb, ls[k - off]? = some lb ∧ lb.side = Side.buy ∧
        lb.pairedIdx = none := by
  induction ls with
  | nil => intro off k h; exact absurd h (by simp [lubAux])
  | cons l rest ih =>
      intro off k h
      unfold lubAux at h
      cases hrec : lubAux (off + 1) rest with
      | some k0 =>
          rw [hrec] at h
          have hk : k0 = k := by simpa using h
          obtain ⟨hle, lb, hget, hside, hpair⟩ := ih (off + 1) k0 hrec
          rw [← hk]
          refine ⟨by omega, lb, ?_, hside, hpair⟩
          have hidx : k0 - off = (k0 - (off + 1)) + 1 := by omega
          rw [hidx]
          simpa using hget
      | none =>
          rw [hrec] at h
          by_cases hcond : l.side = Side.buy ∧ l.pairedIdx = none
          · rw [if_pos hcond] at h
            obtain rfl : off = k := by simpa using h
            exact ⟨le_refl _, l, by simp, hcond.1, hcond.2⟩
          · rw [if_neg hcond] at h
            exact absurd h (by simp)

theorem lastUnpairedBuyIdx_spec (ls : List Level) (b : Nat)
    (h : lastUnpairedBuyIdx ls = some b) :
    ∃ lb, ls[b]? = some lb ∧ lb.side = Side.buy ∧ lb.pairedIdx = none := by
  obtain ⟨-, lb, hget, hside, hpair⟩ := lubAux_spec ls 0 b h
  exact ⟨lb, by simpa using hget, hside, hpair⟩

theorem pairSym_append_unpaired (ls : List Level) (l : Level)
    (hsym : PairSym ls) (hl : l.pairedIdx = none) : PairSym (ls ++ [l]) := by
  intro i j li hget hpair
  rw [List.getElem?_append] at hget
  by_cases hi : i < ls.length
  · rw [if_pos hi] at hget
    obtain ⟨lj, hj, hjp, hside⟩ := hsym i j li hget hpair
    have hjlt : j < ls.length := by
      by_contra hge
      rw [List.getElem?_eq_none (by omega)] at hj
      exact absurd hj (by simp)
    refine ⟨lj, ?_, hjp, hside⟩
    rw [List.getElem?_append, if_pos hjlt]
    exact hj
  · rw [if_neg hi] at hget
    have hli : l = li := by
      rcases Nat.lt_or_ge (i - ls.length) 1 with h1 | h1
      · interval_cases h : (i - ls.length)
        · simpa using hget
      · rw [List.getElem?_eq_none (by simp; omega)] at hget
        exact absurd hget (by simp)
    rw [← hli, hl] at hpair
    exact absurd hpair (by simp)

theorem pairWithLast_eq_nofound (ls : List Level) (sl : Level)
    (h : lastUnpairedBuyIdx ls = none) : pairWithLast ls sl = ls ++ [sl] := by
  unfold pairWithLast
  rw [h]

theorem pairWithLast_eq_found (ls : List Level) (sl : Level) (b : Nat)
    (lb : Level) (hlub : lastUnpairedBuyIdx ls = some b)
    (hget : ls[b]? = some lb) :
    pairWithLast ls sl =
      ls.set b { lb with pairedIdx := some ls.length } ++
        [{ sl with pairedIdx := some b }] := by
  unfold pairWithLast
  split
  next heq => rw [heq] at hlub; exact absurd hlub (by simp)
  next b' heq =>
    rw [heq] at hlub
    obtain rfl : b' = b := by simpa using hlub
    split
    next heq2 => rw [heq2] at hget; exact absurd hget (by simp)
    next lb' heq2 =>
      rw [heq2] at hget
      obtain rfl : lb' = lb := by simpa using hget
      rfl

theorem pairSym_pairWithLast (ls : List Level) (sl : Level)
    (hsym : PairSym ls) (hsl : sl.pairedIdx = none)
    (hsell : sl.side = Side.sell) : PairSym (pairWithLast ls sl) := by
  cases hlub : lastUnpairedBuyIdx ls with
  | none =>
      rw [pairWithLast_eq_nofound ls sl hlub]
      exact pairSym_append_unpaired ls sl hsym hsl
  | some b =>
      obtain ⟨lb, hgetb, hbside, hbpair⟩ := lastUnpairedBuyIdx_spec ls b hlub
      rw [pairWithLast_eq_found ls sl b lb hlub hgetb]
      have hblt : b < ls.length := by
        by_contra hge
        rw [List.getElem?_eq_none (by omega)] at hgetb
        exact absurd hgetb (by simp)
      intro i j li hget hpair
      have hsetlen : (ls.set b { lb with pairedIdx := some ls.length }).length
          = ls.length := List.length_set ls b _
      rw [List.getElem?_append, hsetlen] at hget
      by_cases hi : i < ls.length
      · rw [if_pos hi, List.getElem?_set] at hget
        by_cases hib : b = i
        · rw [if_pos hib, if_pos (by omega)] at hget
          have hli : { lb with pairedIdx := some ls.length } = li := by
            simpa using hget
          rw [← hli] at hpair
          have hj : j = ls.length := by simpa using hpair.symm
          refine ⟨{ sl with pairedIdx := some b }, ?_, ?_, ?_⟩
          · rw [hj, List.getElem?_append, hsetlen, if_neg (by omega)]
            simp
          · simp [hib]
          · rw [← hli]
            simp only []
            rw [show ({ lb with pairedIdx := some ls.length } : Level).side
                = lb.side from rfl]
            rw [show ({ sl with pairedIdx := some b } : Level).side
                = sl.side from rfl]
            rw [hbside, hsell]
            simp
        · rw [if_neg hib] at hget
          obtain ⟨lj, hj, hjp, hside⟩ := hsym i j li hget hpair
          have hjb : j ≠ b := by
            intro hjb
            rw [hjb, hgetb] at hj
            have : lb = lj := by simpa using hj
            rw [← this] at hjp
            rw [hbpair] at hjp
            exact absurd hjp (by simp)
          have hjlt : j < ls.length := by
            by_contra hge
            rw [List.getElem?_eq_none (by omega)] at hj
            exact absurd hj (by simp)
          refine ⟨lj, ?_, hjp, hside⟩
          rw [List.getElem?_append, hsetlen, if_pos hjlt,
            List.getElem?_set, if_neg (fun hbj => hjb hbj.symm)]
          exact hj
      · rw [if_neg hi] at hget
        have hieq : i = ls.length := by
          rcases Nat.lt_or_ge (i - ls.length) 1 with h1 | h1
          · omega
          · rw [List.getElem?_eq_none (by simp; omega)] at hget
            exact absurd hget (by simp)
        rw [hieq] at hget
        simp only [Nat.sub_self] at hget
        have hli : { sl with pairedIdx := some b } = li := by simpa using hget
        rw [← hli] at hpair
        have hj : j = b := by simpa using hpair.symm
        refine ⟨{ lb with pairedIdx := some ls.length }, ?_, ?_, ?_⟩
        · rw [hj, List.getElem?_append, hsetlen, if_pos hblt,
            List.getElem?_set, if_pos rfl, if_pos hblt]
        · rw [hieq]
        · rw [← hli]
          rw [show ({ sl with pairedIdx := some b } : Level).side
              = sl.side from rfl]
          rw [show ({ lb with pairedIdx := some ls.length } : Level).side
              = lb.side from rfl]
          rw [hbside, hsell]
          simp

theorem pairSym_calcGridStep (p : GridParams) (cp : ℚ) (ls : List Level)
    (i : Nat) (hsym : PairSym ls) : PairSym (calcGridStep p cp ls i) := by
  unfold calcGridStep
  by_cases h1 : levelPrice p cp i < cp
  · rw [if_pos h1]
    exact pairSym_append_unpaired ls _ hsym rfl
  · rw [if_neg h1]
    by_cases h2 : cp < levelPrice p cp i
    · rw [if_pos h2]
      exact pairSym_pairWithLast ls _ hsym rfl rfl
    · rw [if_neg h2]
      exact hsym

theorem pairSym_foldl (p : GridParams) (cp : ℚ) : ∀ (is : List Nat)
    (ls : List Level), PairSym ls →
    PairSym (is.foldl (calcGridStep p cp) ls) := by
  intro is
  induction is with
  | nil => intro ls h; exact h
  | cons i rest ih =>
      intro ls h
      exact ih (calcGridStep p cp ls i) (pairSym_calcGridStep p cp ls i h)

/-- **C8** — for every parameter set and current price, the level list
produced by `calculate_grid_levels` has symmetric pairing: whenever level
`A` has `A.paired_level == B`, then `B.paired_level == A`, and the two
levels of the pair have opposite sides (one BUY, one SELL). -/
theorem c8_pairing_symmetric (p : GridParams) (cp : ℚ) :
    PairSym (calculate_grid_levels p cp) := by
  unfold calculate_grid_levels
  apply pairSym_foldl
  intro i j li hget _
  exact absurd hget (by simp)

/-- Witness for `c8_pairing_symmetric`: the default BTC-style parameters
(5 levels, 1% spacing) at price 100; level 2 (the BUY at 99.5) is paired
with level 3, and the theorem yields the mutual back-link. -/
theorem c8_pairing_symmetric_witness :
    (calculate_grid_levels ⟨5, 1/100, 1, 1, 1/200, 1/20⟩ 100)[2]? =
      some ⟨199/2, Side.buy, 1, some 3, true, false, none, none⟩ ∧
    ∃ lj : Level,
      (calculate_grid_levels ⟨5, 1/100, 1, 1, 1/200, 1/20⟩ 100)[3]? =
        some lj ∧ lj.pairedIdx = some 2 ∧
      (Level.mk (199/2) Side.buy 1 (some 3) true false none none).side ≠
        lj.side :=
  ⟨by with_unfolding_all rfl,
    c8_pairing_symmetric ⟨5, 1/100, 1, 1, 1/200, 1/20⟩ 100 2 3
      ⟨199/2, Side.buy, 1, some 3, true, false, none, none⟩
      (by with_unfolding_all rfl) rfl⟩

/-! ## GridBacktester state and trade execution
(`trading_bot/backtesting/grid_backtester.py`).

The mutable state of one `GridBacktester` run together with the strategy
state it drives (`GridHedgeStrategy.grid_levels`, `trades_history`,
`total_profit`); a fresh backtester starts with all of them empty.
Python's `GridLevel` objects live in an object store `heap` (objects are
never deleted, only dereferenced); `grid` is `self.strategy.grid_levels`
as a list of store indices — `adjust_grid` drops unfilled levels from
`grid`, while the dropped objects (and any `paired_level` references to
them) stay intact in the store, exactly as in Python.  `equity` holds
`(timestamp, equity)` pairs with the bar position as timestamp; the
equity dict's redundant `price` field is dropped. -/

/-- One entry of `GridBacktester.trades`. -/
structure GTrade where
  timestamp : Nat
  side : Side
  price : ℚ
  size : ℚ
  commission : ℚ
  value : ℚ
deriving DecidableEq, Repr

/-- One entry of `GridHedgeStrategy.trades_history` (the wall-clock
`close_time` and the `open_time` are not modelled; no claim reads them). -/
structure CloseRec where
  buyPrice : ℚ
  sellPrice : ℚ
  size : ℚ
  profit : ℚ
deriving DecidableEq, Repr

/-- The combined run state of `GridBacktester` + `GridHedgeStrategy`. -/
structure GridState where
  capital : ℚ
  heap : List Level
  grid : List Nat
  trades : List GTrade
  history : List CloseRec
  totalProfit : ℚ
  equity : List (Nat × ℚ)
deriving DecidableEq, Repr

/-- `GridBacktester._execute_trade(level, price, timestamp)`
(lines 94-127):

```python
position_value = level.size * price
commission = position_value * self.commission_rate
if position_value + commission > self.current_capital:
    self.logger.warning(f"Insufficient capital for trade at {price}")
    return
self.trades.append({...})
self.current_capital -= commission
if level.type == 'BUY': self.current_capital -= position_value
else: self.current_capital += position_value
level.is_filled = True; level.fill_price = price; level.fill_time = timestamp
```

The level argument is the store index; the `none` branch is unreachable
(callers pass indices of levels in the store). -/
def gb_execute_trade (commissionRate : ℚ) (st : GridState) (li : Nat)
    (price : ℚ) (t : Nat) : GridState :=
  match st.heap[li]? with
  | none => st
  | some l =>
      if st.capital < l.size * price + l.size * price * commissionRate
      then st
      else
        { st with
          trades := st.trades ++
            [⟨t, l.side, price, l.size, l.size * price * commissionRate,
              l.size * price⟩],
          capital := st.capital - l.size * price * commissionRate +
            (if l.side = Side.buy then -(l.size * price)
             else l.size * price),
          heap := st.heap.set li
            { l with isFilled := true, fillPrice := some price,
                     fillTime := some t } }

/-- `GridHedgeStrategy._calculate_pair_profit(level, current_price)`
(lines 289-301) — note `current_price` is not used by the body:

```python
if not level.paired_level or not level.is_filled or not level.paired_level.is_filled:
    return 0.0
if level.type == 'BUY':
    buy_price = level.fill_price; sell_price = level.paired_level.fill_price
else:
    buy_price = level.paired_level.fill_price; sell_price = level.fill_price
return (sell_price - buy_price) / buy_price
```

`fill_price` is only dereferenced for filled levels, where it is set;
`getD 0` stands for the unreachable `None` case. -/
def pairProfit (heap : List Level) (li : Nat) : ℚ :=
  match heap[li]? with
  | none => 0
  | some l =>
      match l.pairedIdx with
      | none => 0
      | some pj =>
          match heap[pj]? with
          | none => 0
          | some pl =>
              if l.isFilled ∧ pl.isFilled then
                ((if l.side = Side.buy then pl.fillPrice.getD 0
                  else l.fillPrice.getD 0) -
                 (if l.side = Side.buy then l.fillPrice.getD 0
                  else pl.fillPrice.getD 0)) /
                (if l.side = Side.buy then l.fillPrice.getD 0
                 else pl.fillPrice.getD 0)
              else 0

/-- `GridHedgeStrategy._is_paired_trade_profitable(level)` (lines
303-309): false when the pair is absent or unfilled, else whether
`_calculate_pair_profit(level, 0) > 0` — the *same* pair's profit, not
the opposite leg's own profit. -/
def isPairedTradeProfitable (heap : List Level) (li : Nat) : Bool :=
  match heap[li]? with
  | none => false
  | some l =>
      match l.pairedIdx with
      | none => false
      | some pj =>
          match heap[pj]? with
          | none => false
          | some pl =>
              if ¬ pl.isFilled then false
              else decide (0 < pairProfit heap li)

/-- `GridHedgeStrategy._close_position_pair(level)` (lines 311-333):
record the pair profit, append one trade record, and set `is_active =
False` on both levels (`is_filled` is *not* cleared). -/
def close_position_pair (st : GridState) (li : Nat) : GridState :=
  match st.heap[li]? with
  | none => st
  | some l =>
      match l.pairedIdx with
      | none => st
      | some pj =>
          match st.heap[pj]? with
          | none => st
          | some pl =>
              { st with
                totalProfit := st.totalProfit + pairProfit st.heap li,
                history := st.history ++
                  [⟨if l.side = Side.buy then l.fillPrice.getD 0
                      else pl.fillPrice.getD 0,
                    if l.side = Side.sell then l.fillPrice.getD 0
                      else pl.fillPrice.getD 0,
                    l.size, pairProfit st.heap li⟩],
                heap := (st.heap.set li { l with isActive := false }).set pj
                  { pl with isActive := false } }

/-- One iteration of the `manage_positions` loop (lines 271-287):

```python
for level in self.grid_levels:
    if not level.is_filled: continue
    if level.paired_level and level.paired_level.is_filled:
        profit = self._calculate_pair_profit(level, current_price)
        if profit >= self._params['min_profit']:
            self._close_position_pair(level)
        elif profit <= -self._params['max_loss_pct']:
            if self._is_paired_trade_profitable(level):
                self._close_position_pair(level)
```

(`current_price` is forwarded to `_calculate_pair_profit`, which ignores
it.) -/
def manage_positions_step (p : GridParams) (st : GridState) (li : Nat) :
    GridState :=
  match st.heap[li]? with
  | none => st
  | some l =>
      if ¬ l.isFilled then st
      else
        match l.pairedIdx with
        | none => st
        | some pj =>
            match st.heap[pj]? with
            | none => st
            | some pl =>
                if ¬ pl.isFilled then st
                else
                  if p.minProfit ≤ pairProfit st.heap li then
                    close_position_pair st li
                  else if pairProfit st.heap li ≤ -p.maxLossPct then
                    if isPairedTradeProfitable st.heap li then
                      close_position_pair st li
                    else st
                  else st

/-- `GridHedgeStrategy.manage_positions(current_price)`: the loop over
the (unchanging) `grid_levels` list, with each level seeing the mutations
made by earlier iterations. -/
def manage_positions (p : GridParams) (st : GridState) : GridState :=
  st.grid.foldl (manage_positions_step p) st

/-- `GridHedgeStrategy.should_adjust_grid(current_price)` (lines
221-233): true for an empty grid, else true iff the price is within a 10%
buffer of the grid's outer boundary. -/
def should_adjust_grid (heap : List Level) (grid : List Nat) (cp : ℚ) :
    Bool :=
  let prices := grid.filterMap (fun i => (heap[i]?).map (·.price))
  match prices with
  | [] => true
  | p0 :: rest =>
      let mn := rest.foldl min p0
      let mx := rest.foldl max p0
      let buffer := (mx - mn) * (1/10)
      decide (cp < mn + buffer) || decide (mx - buffer < cp)

/-- Re-base the intra-list pair indices of a freshly computed level list
onto the object store (list concatenation models Python object
identity). -/
def shiftPaired (off : Nat) (l : Level) : Level :=
  { l with pairedIdx := l.pairedIdx.map (· + off) }

/-- `GridHedgeStrategy.adjust_grid(current_price)` (lines 235-245): keep
the filled levels, replace all others with a freshly computed grid. -/
def adjust_grid (p : GridParams) (st : GridState) (cp : ℚ) : GridState :=
  let newLevels := (calculate_grid_levels p cp).map
    (shiftPaired st.heap.length)
  let activeIdx := st.grid.filter
    (fun i => (st.heap[i]?).elim false (·.isFilled))
  { st with
    heap := st.heap ++ newLevels,
    grid := activeIdx ++
      (List.range newLevels.length).map (· + st.heap.length) }

/-- `GridBacktester._process_grid_levels(current_price, timestamp)`
(lines 83-92): fire `_execute_trade` for every active, unfilled level the
price has crossed. -/
def process_grid_levels (rate : ℚ) (st : GridState) (cp : ℚ) (t : Nat) :
    GridState :=
  st.grid.foldl (fun acc i =>
    match acc.heap[i]? with
    | none => acc
    | some l =>
        if ¬ l.isActive ∨ l.isFilled then acc
        else if (l.side = Side.buy ∧ cp ≤ l.price) ∨
                (l.side = Side.sell ∧ l.price ≤ cp) then
          gb_execute_trade rate acc i cp t
        else acc) st

/-- The `i >= 20` block of the `run_backtest` loop (lines 58-72):
adjust the grid if needed, process level crossings, manage positions.
`update_support_resistance` and `analyze_market_condition` are also
called there, but they only write `support_levels` / `resistance_levels`
and return a dict nothing reads — no component of this state is
affected, so they do not appear. -/
def grid_trading_phase (p : GridParams) (rate : ℚ) (st : GridState)
    (price : ℚ) (i : Nat) : GridState :=
  if 20 ≤ i then
    manage_positions p (process_grid_levels rate
      (if should_adjust_grid st.heap st.grid price then adjust_grid p st price
       else st) price i)
  else st

/-- One full iteration of the `run_backtest` loop at bar `i`: trading
phase (bars 20 onward), then one equity point `(timestamp, capital)` —
the recorded equity is `self.current_capital`, nothing else. -/
def grid_bar_step (p : GridParams) (rate : ℚ) (closes : List ℚ)
    (st : GridState) (i : Nat) : GridState :=
  let price := (closes[i]?).getD 0
  let st1 := grid_trading_phase p rate st price i
  { st1 with equity := st1.equity ++ [(i, st1.capital)] }

/-- The first `k` iterations of the `run_backtest` loop from a fresh
backtester (capital `cap0`, everything else empty). -/
def grid_run_upto (p : GridParams) (rate cap0 : ℚ) (closes : List ℚ)
    (k : Nat) : GridState :=
  (List.range k).foldl (grid_bar_step p rate closes)
    ⟨cap0, [], [], [], [], 0, []⟩

/-- `GridBacktester.run_backtest(data)` (lines 43-81), up to the final
metrics computation: the full loop over all bars. -/
def grid_run_backtest (p : GridParams) (rate cap0 : ℚ)
    (closes : List ℚ) : GridState :=
  grid_run_upto p rate cap0 closes closes.length

/-! ## Core `Backtester` (`trading_bot/core/backtester.py`, lines 48-101).

```python
def execute_trade(self, timestamp, price, signal):
    if signal == 0 or (signal > 0 and self.position > 0) or (signal < 0 and self.position < 0):
        return None
    size = abs(self.capital * 0.02 / price)
    if 'size_multiplier' in self.strategy_params:
        size *= self.strategy_params['size_multiplier']
    trade_value = -size * price if signal > 0 else size * price
    self.capital += trade_value
    self.position = size if signal > 0 else -size
    return {...}

# run_backtest loop:
for timestamp, row in df.iterrows():
    if row['signal'] != 0:
        trade = self.execute_trade(timestamp, row['close'], row['signal'])
        if trade: self.trades.append(trade)
    current_equity = self.capital + (self.position * row['close'])
    equity_curve.append({'timestamp': timestamp, 'equity': current_equity})
```

A bar carries the two columns the loop reads (`close`, `signal`); the
timestamp is the bar position.  `mult` is `strategy_params
['size_multiplier']`, 1 when the key is absent. -/

/-- One prepared bar as consumed by the `run_backtest` loop. -/
structure BTBar where
  close : ℚ
  signal : Int
deriving DecidableEq, Repr

/-- One entry of `Backtester.trades`. -/
structure BTrade where
  timestamp : Nat
  isBuy : Bool
  price : ℚ
  size : ℚ
  value : ℚ
deriving DecidableEq, Repr

/-- The run state of one `Backtester` simulation. -/
structure BTState where
  capital : ℚ
  position : ℚ
  trades : List BTrade
  equity : List (Nat × ℚ)
deriving DecidableEq, Repr

/-- `Backtester.execute_trade`: `none` models the `return None` no-op
branch; otherwise the computed `(size, trade_value)`. -/
def bt_execute_trade (mult capital position price : ℚ) (signal : Int) :
    Option (ℚ × ℚ) :=
  if signal = 0 ∨ (0 < signal ∧ 0 < position) ∨ (signal < 0 ∧ position < 0)
  then none
  else
    let size := |capital * (2/100) / price| * mult
    let tradeValue := if 0 < signal then -(size * price) else size * price
    some (size, tradeValue)

/-- The trade part of one `run_backtest` iteration: execute the signal
(if any) and record the trade. -/
def bt_trade_phase (mult : ℚ) (st : BTState) (bar : BTBar) : BTState :=
  if bar.signal ≠ 0 then
    match bt_execute_trade mult st.capital st.position bar.close bar.signal
    with
    | none => st
    | some sv =>
        { st with
          capital := st.capital + sv.2,
          position := if 0 < bar.signal then sv.1 else -sv.1,
          trades := st.trades ++
            [⟨st.equity.length, decide (0 < bar.signal), bar.close,
              sv.1, sv.2⟩] }
  else st

/-- One full `run_backtest` iteration: trade, then append the equity
point `capital + position * close` for this bar. -/
def bt_bar_step (mult : ℚ) (st : BTState) (bar : BTBar) : BTState :=
  let st1 := bt_trade_phase mult st bar
  { st1 with
    equity := st1.equity ++
      [(st.equity.length, st1.capital + st1.position * bar.close)] }

/-- `Backtester.run_backtest` up to the final metrics computation:
position 0, capital `cap0`, then the loop over all prepared bars. -/
def bt_run_backtest (mult cap0 : ℚ) (bars : List BTBar) : BTState :=
  bars.foldl (bt_bar_step mult) ⟨cap0, 0, [], []⟩

/-! ## C2 — `GridBacktester._execute_trade` under insufficient capital. -/

theorem gb_execute_trade_of_none (rate : ℚ) (st : GridState) (li : Nat)
    (price : ℚ) (t : Nat) (h : st.heap[li]? = none) :
    gb_execute_trade rate st li price t = st := by
  unfold gb_execute_trade
  rw [h]

theorem gb_execute_trade_of_skip (rate : ℚ) (st : GridState) (li : Nat)
    (price : ℚ) (t : Nat) (l : Level) (hget : st.heap[li]? = some l)
    (hlt : st.capital < l.size * price + l.size * price * rate) :
    gb_execute_trade rate st li price t = st := by
  unfold gb_execute_trade
  split
  next => rfl
  next l' h =>
    rw [h] at hget
    obtain rfl : l' = l := by simpa using hget
    split
    next => rfl
    next hnot => exact absurd hlt hnot

theorem gb_execute_trade_of_exec (rate : ℚ) (st : GridState) (li : Nat)
    (price : ℚ) (t : Nat) (l : Level) (hget : st.heap[li]? = some l)
    (hge : ¬ st.capital < l.size * price + l.size * price * rate) :
    gb_execute_trade rate st li price t =
      { st with
        trades := st.trades ++
          [⟨t, l.side, price, l.size, l.size * price * rate,
            l.size * price⟩],
        capital := st.capital - l.size * price * rate +
          (if l.side = Side.buy then -(l.size * price) else l.size * price),
        heap := st.heap.set li
          { l with isFilled := true, fillPrice := some price,
                   fillTime := some t } } := by
  unfold gb_execute_trade
  split
  next h => rw [h] at hget; exact absurd hget (by simp)
  next l' h =>
    rw [h] at hget
    obtain rfl : l' = l := by simpa using hget
    split
    next hc => exact absurd hc hge
    next => rfl

/-- **C2** — whenever the prospective notional plus commission exceeds
current capital, `_execute_trade` returns with the state unchanged: no
capital debit, no ledger append, the level stays PENDING (`is_filled`
false) — the whole state is equal, and the caller's loop continues;
and (second conjunct) capital never goes below zero: whenever a trade is
not skipped its debit is at most the available capital. -/
theorem c2_insufficient_capital_skips_and_capital_stays_available
    (rate : ℚ) (st : GridState) (li : Nat) (price : ℚ) (t : Nat) :
    (∀ l : Level, st.heap[li]? = some l →
      st.capital < l.size * price + l.size * price * rate →
      gb_execute_trade rate st li price t = st) ∧
    (0 ≤ st.capital → 0 ≤ rate → 0 ≤ price →
      (∀ l ∈ st.heap, 0 ≤ l.size) →
      0 ≤ (gb_execute_trade rate st li price t).capital) := by
  constructor
  · intro l hget hlt
    exact gb_execute_trade_of_skip rate st li price t l hget hlt
  · intro hcap hrate hprice hsizes
    cases hh : st.heap[li]? with
    | none => rw [gb_execute_trade_of_none rate st li price t hh]; exact hcap
    | some l =>
        have hmem : l ∈ st.heap := by
          obtain ⟨hlt, hEq⟩ := List.getElem?_eq_some.mp hh
          exact hEq ▸ List.getElem_mem hlt
        have hsz : 0 ≤ l.size := hsizes l hmem
        have hpv : 0 ≤ l.size * price := mul_nonneg hsz hprice
        have hcom : 0 ≤ l.size * price * rate := mul_nonneg hpv hrate
        by_cases hc : st.capital < l.size * price + l.size * price * rate
        · rw [gb_execute_trade_of_skip rate st li price t l hh hc]
          exact hcap
        · rw [gb_execute_trade_of_exec rate st li price t l hh hc]
          push_neg at hc
          by_cases hside : l.side = Side.buy
          · rw [if_pos hside]
            simp only []
            linarith
          · rw [if_neg hside]
            simp only []
            linarith

/-- Witness for the C2 theorem: one BUY level of size 1 at price 100 with
only 10 of capital and 0.1% commission — the trade is skipped (10 < 100 +
0.1) and the state is returned unchanged; capital stays nonnegative. -/
theorem c2_witness :
    ((⟨10, [mkLevel 100 Side.buy 1], [0], [], [], 0, []⟩ :
        GridState).heap[0]? = some (mkLevel 100 Side.buy 1)) ∧
    ((⟨10, [mkLevel 100 Side.buy 1], [0], [], [], 0, []⟩ :
        GridState).capital <
      (mkLevel 100 Side.buy 1).size * 100 +
        (mkLevel 100 Side.buy 1).size * 100 * (1/1000)) ∧
    gb_execute_trade (1/1000)
      ⟨10, [mkLevel 100 Side.buy 1], [0], [], [], 0, []⟩ 0 100 0 =
      ⟨10, [mkLevel 100 Side.buy 1], [0], [], [], 0, []⟩ ∧
    (0 : ℚ) ≤ (gb_execute_trade (1/1000)
      ⟨10, [mkLevel 100 Side.buy 1], [0], [], [], 0, []⟩ 0 100 0).capital :=
  ⟨by with_unfolding_all rfl, by with_unfolding_all decide,
    (c2_insufficient_capital_skips_and_capital_stays_available
      (1/1000) ⟨10, [mkLevel 100 Side.buy 1], [0], [], [], 0, []⟩
      0 100 0).1 (mkLevel 100 Side.buy 1) (by with_unfolding_all rfl)
      (by with_unfolding_all decide),
    (c2_insufficient_capital_skips_and_capital_stays_available
      (1/1000) ⟨10, [mkLevel 100 Side.buy 1], [0], [], [], 0, []⟩
      0 100 0).2 (by with_unfolding_all decide)
      (by with_unfolding_all decide) (by with_unfolding_all decide)
      (by intro l hl
          simp only [List.mem_singleton] at hl
          rw [hl]
          with_unfolding_all decide)⟩

/-! ## C7 — `manage_positions` / `_close_position_pair`. -/

/-- A minimal both-filled mutual pair: level 0 a BUY filled at `bp`,
level 1 a SELL filled at `sp`, mutually paired, both on the active grid;
fresh trade history. -/
def pairState (bp sp sz cap : ℚ) : GridState :=
  ⟨cap,
   [⟨99, Side.buy, sz, some 1, true, true, some bp, some 0⟩,
    ⟨101, Side.sell, sz, some 0, true, true, some sp, some 1⟩],
   [0, 1], [], [], 0, []⟩

/-- What one `manage_positions` call leaves of `pairState` when the pair
profit meets `min_profit`: both levels inactive (but still `is_filled`),
*two* identical trade records, and the pair profit double-counted into
`total_profit`. -/
def pairStateClosedTwice (bp sp sz cap : ℚ) : GridState :=
  ⟨cap,
   [⟨99, Side.buy, sz, some 1, false, true, some bp, some 0⟩,
    ⟨101, Side.sell, sz, some 0, false, true, some sp, some 1⟩],
   [0, 1], [],
   [⟨bp, sp, sz, (sp - bp) / bp⟩, ⟨bp, sp, sz, (sp - bp) / bp⟩],
   0 + (sp - bp) / bp + (sp - bp) / bp, []⟩

/-- **C7 counterexample** — a single mutually-paired, both-filled pair
(BUY filled at 100, SELL at 101, round-trip profit 1% ≥ min_profit 0.5%):
`manage_positions` appends **two** trade records for the one pair
closure, not the single consolidated record the claim asserts — the loop
body fires once per leg because `_close_position_pair` clears neither
leg's `is_filled`. -/
theorem c7_counterexample :
    ((1 : ℚ)/200) ≤ (101 - 100) / 100 ∧
    (manage_positions ⟨5, 1/100, 1, 1, 1/200, 1/20⟩
        (pairState 100 101 1 1000)).history.length = 2 ∧
    (manage_positions ⟨5, 1/100, 1, 1, 1/200, 1/20⟩
        (pairState 100 101 1 1000)).heap.map (·.isActive) =
      [false, false] := by
  refine ⟨by with_unfolding_all decide, ?_, ?_⟩
  · with_unfolding_all rfl
  · with_unfolding_all rfl

/-- **C7 amended** — on a mutually-paired, both-filled pair (buy fill
price `bp > 0`) with `max_loss_pct > 0`: one `manage_positions` call
closes the pair (marks both levels inactive) **iff** the round-trip
profit `(sp−bp)/bp` meets `min_profit` — the loss-threshold branch never
closes anything, since `_is_paired_trade_profitable` re-computes the
*same* pair profit (not the opposite leg's own profit), which cannot be
both `≤ −max_loss_pct < 0` and `> 0`; and a closure appends one trade
record *per filled leg* (two records, profit double-counted), because
`is_filled` is never cleared.  Below the threshold the call is a
no-op. -/
theorem c7_amended (p : GridParams) (bp sp sz cap : ℚ)
    (hml : 0 < p.maxLossPct) :
    (p.minProfit ≤ (sp - bp) / bp →
      manage_positions p (pairState bp sp sz cap) =
        pairStateClosedTwice bp sp sz cap) ∧
    ((sp - bp) / bp < p.minProfit →
      manage_positions p (pairState bp sp sz cap) =
        pairState bp sp sz cap) := by
  constructor
  · intro hcl
    unfold manage_positions
    rw [show (pairState bp sp sz cap).grid = [0, 1] from rfl]
    simp only [List.foldl_cons, List.foldl_nil]
    have h0 : manage_positions_step p (pairState bp sp sz cap) 0 =
        ⟨cap,
         [⟨99, Side.buy, sz, some 1, false, true, some bp, some 0⟩,
          ⟨101, Side.sell, sz, some 0, false, true, some sp, some 1⟩],
         [0, 1], [], [⟨bp, sp, sz, (sp - bp) / bp⟩],
         0 + (sp - bp) / bp, []⟩ := by
      simp only [manage_positions_step, pairState, close_position_pair,
        pairProfit, List.getElem?_cons_zero, List.getElem?_cons_succ]
      simp only [reduceCtorEq, ite_true, ite_false, if_true, if_false,
        not_true, not_false_iff, and_self, Option.getD_some,
        List.set_cons_zero, List.set_cons_succ, List.nil_append]
      rw [if_pos hcl]
    rw [h0]
    simp only [manage_positions_step, close_position_pair, pairProfit,
      pairStateClosedTwice, List.getElem?_cons_zero, List.getElem?_cons_succ]
    simp only [reduceCtorEq, ite_true, ite_false, if_true, if_false,
      not_true, not_false_iff, and_self, Option.getD_some,
      List.set_cons_zero, List.set_cons_succ, List.nil_append]
    rw [if_pos hcl]
    simp
  · intro hno
    unfold manage_positions
    rw [show (pairState bp sp sz cap).grid = [0, 1] from rfl]
    simp only [List.foldl_cons, List.foldl_nil]
    have h0 : manage_positions_step p (pairState bp sp sz cap) 0 =
        pairState bp sp sz cap := by
      simp only [manage_positions_step, pairState, close_position_pair,
        pairProfit, isPairedTradeProfitable,
        List.getElem?_cons_zero, List.getElem?_cons_succ]
      simp only [reduceCtorEq, ite_true, ite_false, if_true, if_false,
        not_true, not_false_iff, and_self, Option.getD_some,
        List.set_cons_zero, List.set_cons_succ, List.nil_append]
      rw [if_neg (not_le.mpr hno)]
      by_cases hll : (sp - bp) / bp ≤ -p.maxLossPct
      · have hne : ¬ (0 < (sp - bp) / bp) := by intro hpos; linarith
        rw [if_pos hll, if_neg (by simpa using hne)]
      · rw [if_neg hll]
    rw [h0]
    simp only [manage_positions_step, pairState, close_position_pair,
      pairProfit, isPairedTradeProfitable,
      List.getElem?_cons_zero, List.getElem?_cons_succ]
    simp only [reduceCtorEq, ite_true, ite_false, if_true, if_false,
      not_true, not_false_iff, and_self, Option.getD_some,
      List.set_cons_zero, List.set_cons_succ, List.nil_append]
    rw [if_neg (not_le.mpr hno)]
    by_cases hll : (sp - bp) / bp ≤ -p.maxLossPct
    · have hne : ¬ (0 < (sp - bp) / bp) := by intro hpos; linarith
      rw [if_pos hll, if_neg (by simpa using hne)]
    · rw [if_neg hll]

/-- Witness for `c7_amended` at buy fill 100, sell fill 101,
`min_profit` 0.5%, `max_loss_pct` 5%. -/
theorem c7_amended_witness :
    (0 : ℚ) < 1/20 ∧ ((1 : ℚ)/200 ≤ (101 - 100) / 100) ∧
    manage_positions ⟨5, 1/100, 1, 1, 1/200, 1/20⟩
        (pairState 100 101 1 1000) =
      pairStateClosedTwice 100 101 1 1000 :=
  ⟨by with_unfolding_all decide, by with_unfolding_all decide,
    (c7_amended ⟨5, 1/100, 1, 1, 1/200, 1/20⟩ 100 101 1 1000
      (by with_unfolding_all decide)).1 (by with_unfolding_all decide)⟩

/-! ## C1 — equity curves of the two backtesters. -/

theorem gbet_equity (rate : ℚ) (st : GridState) (li : Nat) (price : ℚ)
    (t : Nat) : (gb_execute_trade rate st li price t).equity = st.equity := by
  unfold gb_execute_trade
  split
  · rfl
  · split <;> rfl

theorem cpp_equity (st : GridState) (li : Nat) :
    (close_position_pair st li).equity = st.equity := by
  unfold close_position_pair
  split
  · rfl
  · split
    · rfl
    · split <;> rfl

theorem mps_equity (p : GridParams) (st : GridState) (li : Nat) :
    (manage_positions_step p st li).equity = st.equity := by
  unfold manage_positions_step
  split
  · rfl
  · split
    · rfl
    · split
      · rfl
      · split
        · rfl
        · split
          · rfl
          · split
            · exact cpp_equity st li
            · split
              · split
                · exact cpp_equity st li
                · rfl
              · rfl

theorem mp_equity (p : GridParams) (st : GridState) :
    (manage_positions p st).equity = st.equity := by
  unfold manage_positions
  generalize st.grid = g
  induction g generalizing st with
  | nil => rfl
  | cons i rest ih =>
      rw [List.foldl_cons, ih (manage_positions_step p st i),
        mps_equity p st i]

theorem pgl_equity (rate : ℚ) (st : GridState) (cp : ℚ) (t : Nat) :
    (process_grid_levels rate st cp t).equity = st.equity := by
  unfold process_grid_levels
  generalize st.grid = g
  induction g generalizing st with
  | nil => rfl
  | cons i rest ih =>
      rw [List.foldl_cons]
      rw [ih]
      split
      · rfl
      · split
        · rfl
        · split
          · exact gbet_equity rate st i cp t
          · rfl

theorem ag_equity (p : GridParams) (st : GridState) (cp : ℚ) :
    (adjust_grid p st cp).equity = st.equity := rfl

theorem gtp_equity (p : GridParams) (rate : ℚ) (st : GridState)
    (price : ℚ) (i : Nat) :
    (grid_trading_phase p rate st price i).equity = st.equity := by
  unfold grid_trading_phase
  split
  · rw [mp_equity, pgl_equity]
    split
    · exact ag_equity p st price
    · rfl
  · rfl

/-- Per-bar equity trace of `GridBacktester.run_backtest`: after `k` loop
iterations there are exactly `k` equity points, the `i`-th is stamped
`i`, and its value is the `current_capital` after bar `i` — nothing is
added for open positions. -/
theorem grid_equity_trace (p : GridParams) (rate cap0 : ℚ)
    (closes : List ℚ) : ∀ k : Nat,
    (grid_run_upto p rate cap0 closes k).equity.length = k ∧
    ∀ i, i < k → (grid_run_upto p rate cap0 closes k).equity[i]? =
      some (i, (grid_run_upto p rate cap0 closes (i+1)).capital) := by
  intro k
  induction k with
  | zero => exact ⟨rfl, fun i hi => absurd hi (by omega)⟩
  | succ k ih =>
      have hstep : grid_run_upto p rate cap0 closes (k+1) =
          grid_bar_step p rate closes (grid_run_upto p rate cap0 closes k)
            k := by
        unfold grid_run_upto
        rw [List.range_succ, List.foldl_append, List.foldl_cons,
          List.foldl_nil]
      constructor
      · rw [hstep]
        simp only [grid_bar_step, List.length_append, List.length_cons,
          List.length_nil]
        rw [gtp_equity, ih.1]
      · intro i hi
        by_cases hik : i < k
        · rw [hstep]
          simp only [grid_bar_step]
          rw [gtp_equity, List.getElem?_append,
            if_pos (by rw [ih.1]; exact hik)]
          exact ih.2 i hik
        · obtain rfl : i = k := by omega
          rw [hstep]
          simp only [grid_bar_step]
          rw [gtp_equity, List.getElem?_append,
            if_neg (by rw [ih.1]; omega), ih.1]
          simp

theorem btp_equity (mult : ℚ) (st : BTState) (bar : BTBar) :
    (bt_trade_phase mult st bar).equity = st.equity := by
  unfold bt_trade_phase
  split
  · split <;> rfl
  · rfl

/-- Per-bar equity trace of `Backtester.run_backtest`: exactly one point
per bar, stamped by bar position, whose value is `capital + position *
close` of the state right after that bar's trade. -/
theorem bt_equity_trace (mult cap0 : ℚ) (bars : List BTBar) :
    (bt_run_backtest mult cap0 bars).equity.length = bars.length ∧
    ∀ (i : Nat) (bar : BTBar), bars[i]? = some bar →
      (bt_run_backtest mult cap0 bars).equity[i]? =
        some (i, (bt_run_backtest mult cap0 (bars.take (i+1))).capital +
          (bt_run_backtest mult cap0 (bars.take (i+1))).position *
            bar.close) := by
  induction bars using List.reverseRecOn with
  | nil => exact ⟨rfl, fun i bar h => absurd h (by simp)⟩
  | append_singleton bs b ih =>
      have hstep : bt_run_backtest mult cap0 (bs ++ [b]) =
          bt_bar_step mult (bt_run_backtest mult cap0 bs) b := by
        unfold bt_run_backtest
        rw [List.foldl_append, List.foldl_cons, List.foldl_nil]
      constructor
      · rw [hstep]
        simp only [bt_bar_step, List.length_append, List.length_cons,
          List.length_nil]
        rw [btp_equity, ih.1]
      · intro i bar hbar
        by_cases hik : i < bs.length
        · rw [List.getElem?_append, if_pos hik] at hbar
          rw [hstep]
          simp only [bt_bar_step]
          rw [btp_equity, List.getElem?_append,
            if_pos (by rw [ih.1]; exact hik)]
          rw [List.take_append_of_le_length (by omega)]
          exact ih.2 i bar hbar
        · by_cases hik2 : i = bs.length
          · subst hik2
            have hb : bar = b := by
              rw [List.getElem?_concat_length] at hbar
              simpa using hbar.symm
            subst hb
            rw [hstep]
            simp only [bt_bar_step]
            rw [btp_equity, List.getElem?_append,
              if_neg (by rw [ih.1]; omega), ih.1]
            rw [List.take_of_length_le (by simp)]
            rw [hstep]
            simp [bt_bar_step]
          · rw [List.getElem?_eq_none (by simp; omega)] at hbar
            exact absurd hbar (by simp)

/-- The claim's notion (from the spec's words) of the grid backtester's
"unrealized value of open positions at the bar's close price": every
filled, still-active (unclosed) grid level marked to the close. -/
def claim_unrealized_value (st : GridState) (price : ℚ) : ℚ :=
  (st.grid.filterMap (fun i => st.heap[i]?)).foldl
    (fun acc l => if l.isFilled ∧ l.isActive then acc + l.size * price
      else acc) 0

/-- **C1 counterexample** — 22 bars (21 closes at 100, then one at 99),
default-style grid parameters (5 levels, 1% spacing, size 1, zero
commission), initial capital 1000: at bar 21 the BUY level at 99.5 fills,
capital drops to 901, and the recorded equity point is `(21, 901)` — the
bare `current_capital` — while the claim's value, capital plus the filled
open level marked to the close (`901 + 1·99 = 1000`), differs.  The
GridBacktester equity curve does *not* include unrealized position
value. -/
theorem c1_counterexample :
    (grid_run_backtest ⟨5, 1/100, 1, 1, 1/200, 1/20⟩ 0 1000
        (List.replicate 21 100 ++ [99])).equity[21]? = some (21, 901) ∧
    claim_unrealized_value
        (grid_run_backtest ⟨5, 1/100, 1, 1, 1/200, 1/20⟩ 0 1000
          (List.replicate 21 100 ++ [99])) 99 = 99 ∧
    ((901 : ℚ) ≠ 901 + 99) := by
  refine ⟨?_, ?_, ?_⟩
  · with_unfolding_all rfl
  · with_unfolding_all rfl
  · with_unfolding_all decide

/-- **C1 amended** — `Backtester.run_backtest` appends exactly one equity
point per processed bar, stamped in bar order, with equity = remaining
capital + position × that bar's close (its single open position marked to
market), exactly as claimed; `GridBacktester.run_backtest` also appends
exactly one point per bar in bar order, but each point's equity is the
remaining `current_capital` alone — the unrealized value of filled,
unclosed grid levels is *not* included (see the counterexample). -/
theorem c1_amended (mult cap0 : ℚ) (bars : List BTBar) (p : GridParams)
    (rate gcap : ℚ) (closes : List ℚ) :
    ((bt_run_backtest mult cap0 bars).equity.length = bars.length ∧
     ∀ (i : Nat) (bar : BTBar), bars[i]? = some bar →
       (bt_run_backtest mult cap0 bars).equity[i]? =
         some (i, (bt_run_backtest mult cap0 (bars.take (i+1))).capital +
           (bt_run_backtest mult cap0 (bars.take (i+1))).position *
             bar.close)) ∧
    ((grid_run_backtest p rate gcap closes).equity.length =
        closes.length ∧
     ∀ i, i < closes.length →
       (grid_run_backtest p rate gcap closes).equity[i]? =
         some (i, (grid_run_upto p rate gcap closes (i+1)).capital)) :=
  ⟨bt_equity_trace mult cap0 bars,
   (grid_equity_trace p rate gcap closes closes.length).1,
   fun i hi => (grid_equity_trace p rate gcap closes closes.length).2 i hi⟩

/-- Witness for `c1_amended`: a one-bar run of each backtester. -/
theorem c1_amended_witness :
    (([⟨100, 1⟩] : List BTBar)[0]? = some ⟨100, 1⟩) ∧
    (bt_run_backtest 1 1000 [⟨100, 1⟩]).equity[0]? =
      some (0, (bt_run_backtest 1 1000 (([⟨100, 1⟩] : List BTBar).take 1)
          ).capital +
        (bt_run_backtest 1 1000 (([⟨100, 1⟩] : List BTBar).take 1)
          ).position * (100 : ℚ)) ∧
    (0 < ([100] : List ℚ).length) ∧
    (grid_run_backtest ⟨5, 1/100, 1, 1, 1/200, 1/20⟩ 0 1000
        [100]).equity[0]? =
      some (0, (grid_run_upto ⟨5, 1/100, 1, 1, 1/200, 1/20⟩ 0 1000
        [100] 1).capital) :=
  ⟨by with_unfolding_all rfl,
   (c1_amended 1 1000 [⟨100, 1⟩] ⟨5, 1/100, 1, 1, 1/200, 1/20⟩ 0 1000
     [100]).1.2 0 ⟨100, 1⟩ (by with_unfolding_all rfl),
   by decide,
   (c1_amended 1 1000 [⟨100, 1⟩] ⟨5, 1/100, 1, 1, 1/200, 1/20⟩ 0 1000
     [100]).2.2 0 (by decide)⟩
